import Mathlib

/-!
Shallow embedding of the `whisper-stream-server` core
(`src/audio_buffer.cpp`, `src/whisper_server.cpp`, `src/main.cpp`) and
proofs about it.

Modelling conventions:
* PCM samples are rationals (`ℚ`).  The only float operation the claims
  touch is `int16ToFloat`, which computes `i / 32768.0f`; for
  `i ∈ [-32768, 32767]` this quotient is exactly representable in binary32
  (numerator below 2^24, division by a power of two), so the rational model
  is exact.
* C++ `int` / `int64_t` values are `ℤ`; container sizes are `ℕ`.
* Fallible external calls (`whisper_full`, the VAD model) are oracles passed
  in as function parameters (`infer : List ℚ → Option String`,
  `speech : String → Bool`).
* The concurrent server is modelled as a labelled transition system whose
  atomic steps are the mutex-protected operations of the source
  (`createSession`, `destroySession`, `onAudioReceived`, the VAD tick, the
  whisper tick, the message flush, `stop`).
-/

namespace WhisperStream

/-- Outgoing JSON message kinds (`makeReadyMessage`, `makePartialMessage`,
`makeFinalMessage`, `makeErrorMessage` in `whisper_server.cpp`). -/
inductive Msg : Type
  | Ready : String → ℤ → Msg
  | Partial : String → Msg
  | Final : String → Msg
  | Error : String → Msg
  deriving DecidableEq, Repr

/-- Is this a `ready` message? -/
def Msg.isReady : Msg → Bool
  | Msg.Ready _ _ => true
  | _ => false

/-- Is this a `final` message? -/
def Msg.isFinal : Msg → Bool
  | Msg.Final _ => true
  | _ => false

/-- Is this an `error` message? -/
def Msg.isError : Msg → Bool
  | Msg.Error _ => true
  | _ => false

/-- VAD speech state (`enum class SpeechState` in `whisper_server.hpp`). -/
inductive SpeechState : Type
  | IDLE
  | SPEAKING
  | ENDING
  deriving DecidableEq, Repr

/-- `AudioBuffer::int16ToFloat` (`audio_buffer.hpp`):
`static_cast<float>(sample) / 32768.0f`, exact in binary32 for 16-bit
inputs, hence modelled exactly on `ℚ`. -/
def int16ToFloat (sample : ℤ) : ℚ :=
  (sample : ℚ) / 32768

/-- The `while (buffer_.size() > max_samples_) buffer_.pop_front();` loop
shared by `AudioBuffer::push` and `AudioBuffer::pushFloat`. -/
def trimLoop (maxSamples : ℕ) : List ℚ → List ℚ
  | [] => []
  | x :: t =>
    if (x :: t).length > maxSamples then trimLoop maxSamples t
    else x :: t

/-- Thread-safe PCM accumulation buffer (`audio_buffer.hpp` /
`audio_buffer.cpp`).  The deque of float samples together with the
capacity and sample rate set by the constructor. -/
structure AudioBuffer : Type where
  buffer : List ℚ
  max_samples : ℕ
  sample_rate : ℕ
  deriving DecidableEq, Repr

/-- `AudioBuffer::AudioBuffer(max_seconds, sample_rate)`:
`max_samples_ = size_t(max_seconds * sample_rate)`, empty deque. -/
def AudioBuffer.mkBuffer (maxSeconds : ℚ) (sampleRate : ℕ) : AudioBuffer :=
  { buffer := []
    max_samples := (maxSeconds * (sampleRate : ℚ)).floor.toNat
    sample_rate := sampleRate }

/-- `AudioBuffer::push(const int16_t*, size_t)`: append each sample through
`int16ToFloat`, then drop from the front while over capacity. -/
def AudioBuffer.push (b : AudioBuffer) (samples : List ℤ) : AudioBuffer :=
  { b with buffer := trimLoop b.max_samples (b.buffer ++ samples.map int16ToFloat) }

/-- `AudioBuffer::pushFloat(const float*, size_t)`: append as-is, same
drop rule. -/
def AudioBuffer.pushFloat (b : AudioBuffer) (samples : List ℚ) : AudioBuffer :=
  { b with buffer := trimLoop b.max_samples (b.buffer ++ samples) }

/-- `AudioBuffer::getAll()`: copy of the whole deque. -/
def AudioBuffer.getAll (b : AudioBuffer) : List ℚ :=
  b.buffer

/-- `AudioBuffer::clear()`. -/
def AudioBuffer.clear (b : AudioBuffer) : AudioBuffer :=
  { b with buffer := [] }

/-- `AudioBuffer::getLastMs(ms)`: the last `(ms / 1000) * sample_rate`
samples (fewer if the buffer is smaller).  The source computes the count
in binary32; for the configuration values used here the product is exact,
so integer arithmetic is faithful. -/
def AudioBuffer.getLastMs (b : AudioBuffer) (ms : ℤ) : List ℚ :=
  let n := min ((ms * b.sample_rate) / 1000).toNat b.buffer.length
  b.buffer.drop (b.buffer.length - n)

/-- `AudioBuffer::hasMinDuration(min_ms)`: at least
`(min_ms / 1000) * sample_rate` samples buffered (same exactness remark
as `getLastMs`). -/
def AudioBuffer.hasMinDuration (b : AudioBuffer) (minMs : ℤ) : Bool :=
  b.buffer.length ≥ ((minMs * b.sample_rate) / 1000).toNat

/-- Push a sequence of int16 batches (`push` called once per inbound
frame). -/
def AudioBuffer.pushBatches (b : AudioBuffer) (batches : List (List ℤ)) : AudioBuffer :=
  batches.foldl AudioBuffer.push b

/-- Push a sequence of float batches (`pushFloat` called once per
batch). -/
def AudioBuffer.pushFloatBatches (b : AudioBuffer) (batches : List (List ℚ)) : AudioBuffer :=
  batches.foldl AudioBuffer.pushFloat b

/-- `WHISPER_SAMPLE_RATE` (16000 Hz). -/
def WHISPER_SAMPLE_RATE : ℤ := 16000

/-- `struct ServerConfig` (`whisper_server.hpp`) with the defaults of the
field initializers, plus the `host` / `auth_token` fields used by
`main.cpp`. -/
structure ServerConfig : Type where
  model_path : String := "models/ggml-base.en.bin"
  language : String := "en"
  port : ℤ := 9090
  n_contexts : ℤ := 2
  n_threads : ℤ := 4
  step_ms : ℤ := 500
  length_ms : ℤ := 5000
  keep_ms : ℤ := 200
  use_gpu : Bool := true
  flash_attn : Bool := true
  translate : Bool := false
  vad_model_path : String := ""
  vad_threshold : ℚ := 1/2
  vad_check_ms : ℤ := 30
  silence_trigger_ms : ℤ := 1000
  min_speech_ms : ℤ := 100
  host : String := "0.0.0.0"
  auth_token : String := ""
  deriving DecidableEq, Repr

/-- `struct ContextSlot` (`whisper_server.hpp`).  The `whisper_context*`
pointer is abstracted away (it is non-null for every slot once `init()`
succeeds, and is only passed to the external engine). -/
structure ContextSlot : Type where
  slot_id : ℕ
  in_use : Bool
  deriving DecidableEq, Repr

/-- `struct Session` (`whisper_server.hpp`).  `context_slot` is the id of
the referenced pool slot (`none` models a null pointer); `ws_handle`,
`flush_pending` and `inference_running` are kept only as far as the
sequential model can see them. -/
structure Session : Type where
  id : String
  audio : AudioBuffer
  pcmf32_old : List ℚ
  last_text : String
  context_slot : Option ℕ
  active : Bool
  inference_running : Bool
  speech_state : SpeechState
  speech_start_ms : ℤ
  last_speech_ms : ℤ
  pending_text : String
  outgoing_messages : List Msg
  deriving DecidableEq, Repr

/-- `Session::enqueueMessage`. -/
def Session.enqueueMessage (s : Session) (m : Msg) : Session :=
  { s with outgoing_messages := s.outgoing_messages ++ [m] }

/-- `Session::drainMessages`: returns the queue and clears it. -/
def Session.drainMessages (s : Session) : List Msg × Session :=
  (s.outgoing_messages, { s with outgoing_messages := [] })

/-- The mutable state of `WhisperServer`: the context pool and the session
registry (an association list with unique keys mirroring the
`unordered_map`). -/
structure ServerState : Type where
  context_pool : List ContextSlot
  sessions : List (String × Session)
  deriving DecidableEq, Repr

/-- The state after `init()` succeeds: `n_contexts` slots, ids `0..n-1`,
all free; no sessions. -/
def initState (cfg : ServerConfig) : ServerState :=
  { context_pool :=
      (List.range cfg.n_contexts.toNat).map (fun i => { slot_id := i, in_use := false })
    sessions := [] }

/-- `WhisperServer::acquireContext`: scan the pool for the first slot with
`!in_use`, mark it used and return it; `none` when all are busy. -/
def acquireContext : List ContextSlot → Option ℕ × List ContextSlot
  | [] => (none, [])
  | slot :: rest =>
    if slot.in_use = false then
      (some slot.slot_id, { slot with in_use := true } :: rest)
    else
      let r := acquireContext rest
      (r.1, slot :: r.2)

/-- `WhisperServer::releaseContext`: guard against null, then mark the
slot free. -/
def releaseContext (pool : List ContextSlot) : Option ℕ → List ContextSlot
  | none => pool
  | some i => pool.map (fun slot => if slot.slot_id = i then { slot with in_use := false } else slot)

/-- Registry lookup (`sessions_.find(id)`): first entry with the key. -/
def findSession (st : ServerState) (id : String) : Option Session :=
  (st.sessions.find? (fun p => p.1 = id)).map (fun p => p.2)

/-- `WhisperServer::createSession`: acquire a context first; on failure
return null and leave the registry untouched; on success insert a fresh
session that already holds the slot. -/
def createSession (st : ServerState) (id : String) : Option Session × ServerState :=
  match acquireContext st.context_pool with
  | (none, pool') => (none, { st with context_pool := pool' })
  | (some i, pool') =>
    let sess : Session :=
      { id := id
        audio := AudioBuffer.mkBuffer 30 16000
        pcmf32_old := []
        last_text := ""
        context_slot := some i
        active := true
        inference_running := false
        speech_state := SpeechState.IDLE
        speech_start_ms := 0
        last_speech_ms := 0
        pending_text := ""
        outgoing_messages := [] }
    (some sess, { st with context_pool := pool', sessions := st.sessions ++ [(id, sess)] })

/-- `WhisperServer::destroySession`: erase the registry entry, then
release its context slot (after the spin-wait on `inference_running`,
which the sequential model elides). -/
def destroySession (st : ServerState) (id : String) : ServerState :=
  match st.sessions.find? (fun p => p.1 = id) with
  | none => st
  | some p =>
    { context_pool := releaseContext st.context_pool p.2.context_slot
      sessions := st.sessions.eraseP (fun q => q.1 = id) }

/-- `WhisperServer::onAudioReceived`: look the session up; push the PCM
only when it exists and is active, otherwise do nothing. -/
def onAudioReceived (st : ServerState) (id : String) (data : List ℤ) : ServerState :=
  match st.sessions.find? (fun p => p.1 = id) with
  | none => st
  | some p =>
    if p.2.active = true then
      { st with
        sessions := st.sessions.map (fun q =>
          if q.1 = id then (q.1, { q.2 with audio := q.2.audio.push data }) else q) }
    else st

/-- `WhisperServer::stop`: set every session inactive, release every held
slot, clear the registry. -/
def stopServer (st : ServerState) : ServerState :=
  { context_pool := st.sessions.foldl (fun pool p => releaseContext pool p.2.context_slot) st.context_pool
    sessions := [] }

/-- The whitespace set `" \t\n\r"` used by the trimming code in
`runInference` / `emitFinal`. -/
def isTrimChar (c : Char) : Bool :=
  c = ' ' || c = '\t' || c = '\n' || c = '\r'

/-- The `find_first_not_of` / `find_last_not_of` trimming of
`runInference` / `emitFinal`: strip leading and trailing members of
`" \t\n\r"`; a string of only whitespace becomes empty. -/
def trimText (t : String) : String :=
  String.mk (((t.data.dropWhile isTrimChar).reverse.dropWhile isTrimChar).reverse)

/-- `n_samples_keep = (keep_ms * WHISPER_SAMPLE_RATE) / 1000`
(C++ `int` arithmetic on non-negative configuration values). -/
def nSamplesKeep (cfg : ServerConfig) : ℤ :=
  cfg.keep_ms * WHISPER_SAMPLE_RATE / 1000

/-- `n_samples_len = (length_ms * WHISPER_SAMPLE_RATE) / 1000`. -/
def nSamplesLen (cfg : ServerConfig) : ℤ :=
  cfg.length_ms * WHISPER_SAMPLE_RATE / 1000

/-- `n_samples_take`: `0` when `pcmf32_old` is empty, otherwise
`min(pcmf32_old.size(), max(0, n_samples_keep + n_samples_len - pcmf32_new.size()))`
(`runInference`, `whisper_server.cpp`). -/
def nSamplesTake (cfg : ServerConfig) (old new : List ℚ) : ℤ :=
  if old = [] then 0
  else min (old.length : ℤ) (max 0 (nSamplesKeep cfg + nSamplesLen cfg - (new.length : ℤ)))

/-- The sliding window built by `runInference`: the last `n_samples_take`
samples of `pcmf32_old` (the two `memcpy` calls copy
`pcmf32_old[size - take ..]` and then the new audio). -/
def buildWindow (cfg : ServerConfig) (old new : List ℚ) : List ℚ :=
  old.drop (old.length - (nSamplesTake cfg old new).toNat) ++ new

/-- `WhisperServer::runInference`.  `infer` is the external
`whisper_full` + segment-concatenation call with the partial-pass
parameters (`single_segment = true`, `no_context = true`, ...); `none`
models a non-zero return code. -/
def runInference (cfg : ServerConfig) (infer : List ℚ → Option String) (s : Session) : Session :=
  if s.context_slot = none then s
  else
    let new := s.audio.getAll
    let s1 := { s with audio := s.audio.clear }
    if new = [] then s1
    else
      let window := buildWindow cfg s1.pcmf32_old new
      let s2 := { s1 with pcmf32_old := window }
      match infer window with
      | none => s2
      | some raw =>
        let text := trimText raw
        if text ≠ "" ∧ text ≠ s2.last_text then
          let s3 := s2.enqueueMessage (Msg.Partial text)
          { s3 with pending_text := text, last_text := text }
        else s2

/-- `WhisperServer::updateVADState`.  `prob` is the speech probability the
external VAD returns for the session's last `vad_check_ms` of audio
(`detectSpeechProb`); the function returns unchanged when that tail is
empty, exactly as the source early-returns. -/
def updateVADState (cfg : ServerConfig) (prob : ℚ) (s : Session) (now : ℤ) : Session :=
  if s.audio.getLastMs cfg.vad_check_ms = [] then s
  else
    match s.speech_state with
    | SpeechState.IDLE =>
      if cfg.vad_threshold < prob then
        { s with
          speech_state := SpeechState.SPEAKING
          speech_start_ms := now
          last_speech_ms := now
          pending_text := "" }
      else s
    | SpeechState.SPEAKING =>
      if cfg.vad_threshold < prob then { s with last_speech_ms := now }
      else
        if now - s.last_speech_ms ≥ cfg.silence_trigger_ms then
          if now - s.speech_start_ms ≥ cfg.min_speech_ms then
            { s with speech_state := SpeechState.ENDING }
          else
            { s with speech_state := SpeechState.IDLE }
        else s
    | SpeechState.ENDING =>
      if cfg.vad_threshold < prob then
        { s with speech_state := SpeechState.SPEAKING, last_speech_ms := now }
      else s

/-- `WhisperServer::emitFinal`.  `infer` is the external call with the
final-pass parameters (`single_segment = false`); the reset block at the
bottom runs unconditionally once the state is `ENDING`.  Note that the
source never touches the context pool here: the session keeps its
slot. -/
def emitFinal (infer : List ℚ → Option String) (s : Session) : Session :=
  if s.speech_state ≠ SpeechState.ENDING then s
  else
    let pcm := s.pcmf32_old
    let final_text :=
      if pcm ≠ [] ∧ s.context_slot ≠ none then
        match infer pcm with
        | some raw => trimText raw
        | none => ""
      else ""
    let s1 := if final_text ≠ "" then s.enqueueMessage (Msg.Final final_text) else s
    { s1 with
      speech_state := SpeechState.IDLE
      pending_text := ""
      pcmf32_old := []
      last_text := ""
      audio := s1.audio.clear }

/-- One session's share of the 500 ms whisper pass of
`WhisperServer::inferenceLoop`: with VAD disabled always run a partial
when enough audio is buffered; with VAD enabled run a partial while
`SPEAKING` and `emitFinal` while `ENDING`. -/
def whisperTickSession (cfg : ServerConfig) (vad : Bool)
    (inferP inferF : List ℚ → Option String) (s : Session) : Session :=
  if vad = false then
    if !s.inference_running && s.audio.hasMinDuration cfg.step_ms then
      runInference cfg inferP s
    else s
  else if s.speech_state = SpeechState.SPEAKING then
    if !s.inference_running then runInference cfg inferP s else s
  else if s.speech_state = SpeechState.ENDING then
    emitFinal inferF s
  else s

/-- The whisper pass applied to the snapshot of active sessions. -/
def whisperTick (cfg : ServerConfig) (vad : Bool)
    (inferP inferF : List ℚ → Option String) (st : ServerState) : ServerState :=
  { st with
    sessions := st.sessions.map (fun p =>
      if p.2.active then (p.1, whisperTickSession cfg vad inferP inferF p.2) else p) }

/-- The 30 ms VAD pass of `inferenceLoop` (only entered when `vad_ctx_`
is non-null): `updateVADState` on each active session, with `probs`
supplying the external VAD's answer per session. -/
def vadTick (cfg : ServerConfig) (probs : String → ℚ) (now : ℤ) (st : ServerState) : ServerState :=
  { st with
    sessions := st.sessions.map (fun p =>
      if p.2.active then (p.1, updateVADState cfg (probs p.1) p.2 now) else p) }

/-- `flushSessionMessagesOnEventLoop`: drain the session's outgoing queue
(the drained messages are written to the socket). -/
def flushSession (st : ServerState) (id : String) : ServerState :=
  { st with
    sessions := st.sessions.map (fun p =>
      if p.1 = id then (p.1, { p.2 with outgoing_messages := [] }) else p) }

/-- The `.open` WebSocket handler of `main.cpp`: create the session; on a
null result send an error frame and close, otherwise send the `ready`
frame.  The returned message is the one written directly to this
socket. -/
def openHandler (cfg : ServerConfig) (st : ServerState) (id : String) : ServerState × Msg :=
  match createSession st id with
  | (none, st') => (st', Msg.Error "No available contexts, try again later")
  | (some _, st') => (st', Msg.Ready cfg.model_path cfg.n_contexts)

/-- Open a series of connections, collecting the direct reply each client
receives. -/
def openMany (cfg : ServerConfig) (st : ServerState) : List String → ServerState × List Msg
  | [] => (st, [])
  | id :: rest =>
    let r := openHandler cfg st id
    let rr := openMany cfg r.1 rest
    (rr.1, r.2 :: rr.2)

/-- The atomic, mutex-protected operations of a server run.  `vad` records
whether `vad_ctx_` is non-null (a VAD model was configured and loaded);
the VAD pass of `inferenceLoop` is guarded by `vad_ctx_ &&` and therefore
requires `vad = true`.  Oracles (`probs`, `inferP`, `inferF`) are chosen
per step, reflecting the external engines.  The `open` handler only ever
runs with an id that is not yet registered (`main.cpp` generates
`"session_" + ++counter`). -/
inductive Step (cfg : ServerConfig) (vad : Bool) : ServerState → ServerState → Prop
  | openStep (st : ServerState) (id : String)
      (h : st.sessions.find? (fun p => p.1 = id) = none) :
      Step cfg vad st (openHandler cfg st id).1
  | closeStep (st : ServerState) (id : String) :
      Step cfg vad st (destroySession st id)
  | audioStep (st : ServerState) (id : String) (data : List ℤ) :
      Step cfg vad st (onAudioReceived st id data)
  | vadStep (st : ServerState) (probs : String → ℚ) (now : ℤ) (h : vad = true) :
      Step cfg vad st (vadTick cfg probs now st)
  | whisperStep (st : ServerState) (inferP inferF : List ℚ → Option String) :
      Step cfg vad st (whisperTick cfg vad inferP inferF st)
  | flushStep (st : ServerState) (id : String) :
      Step cfg vad st (flushSession st id)
  | stopStep (st : ServerState) :
      Step cfg vad st (stopServer st)

/-- States reachable from the freshly initialized server. -/
def Reachable (cfg : ServerConfig) (vad : Bool) (st : ServerState) : Prop :=
  Relation.ReflTransGen (Step cfg vad) (initState cfg) st

/-- `parseArgs` of `main.cpp`.  `stoi` / `stof` are the numeric
conversions (`std::stoi` / `std::stof`); a conversion failure throws in
the source and terminates the process, modelled as `none` (the process
does not start either way).  An option name in the last position falls
through to the unknown-argument branch of the source, hence `none`.  The
final check is the validation block: `--vad-model` is required. -/
def parseArgs (stoi : String → Option ℤ) (stof : String → Option ℚ) :
    List String → ServerConfig → Option ServerConfig
  | [], cfg => if cfg.vad_model_path = "" then none else some cfg
  | arg :: rest, cfg =>
    if arg = "-h" || arg = "--help" then none
    else if arg = "-m" || arg = "--model" then
      match rest with
      | v :: rest' => parseArgs stoi stof rest' { cfg with model_path := v }
      | [] => none
    else if arg = "-p" || arg = "--port" then
      match rest with
      | v :: rest' =>
        match stoi v with
        | some n => parseArgs stoi stof rest' { cfg with port := n }
        | none => none
      | [] => none
    else if arg = "-c" || arg = "--contexts" then
      match rest with
      | v :: rest' =>
        match stoi v with
        | some n => parseArgs stoi stof rest' { cfg with n_contexts := n }
        | none => none
      | [] => none
    else if arg = "-t" || arg = "--threads" then
      match rest with
      | v :: rest' =>
        match stoi v with
        | some n => parseArgs stoi stof rest' { cfg with n_threads := n }
        | none => none
      | [] => none
    else if arg = "-l" || arg = "--language" then
      match rest with
      | v :: rest' => parseArgs stoi stof rest' { cfg with language := v }
      | [] => none
    else if arg = "--step" then
      match rest with
      | v :: rest' =>
        match stoi v with
        | some n => parseArgs stoi stof rest' { cfg with step_ms := n }
        | none => none
      | [] => none
    else if arg = "--length" then
      match rest with
      | v :: rest' =>
        match stoi v with
        | some n => parseArgs stoi stof rest' { cfg with length_ms := n }
        | none => none
      | [] => none
    else if arg = "--keep" then
      match rest with
      | v :: rest' =>
        match stoi v with
        | some n => parseArgs stoi stof rest' { cfg with keep_ms := n }
        | none => none
      | [] => none
    else if arg = "--no-gpu" then
      parseArgs stoi stof rest { cfg with use_gpu := false }
    else if arg = "--translate" then
      parseArgs stoi stof rest { cfg with translate := true }
    else if arg = "--vad-model" then
      match rest with
      | v :: rest' => parseArgs stoi stof rest' { cfg with vad_model_path := v }
      | [] => none
    else if arg = "--vad-threshold" then
      match rest with
      | v :: rest' =>
        match stof v with
        | some q => parseArgs stoi stof rest' { cfg with vad_threshold := q }
        | none => none
      | [] => none
    else if arg = "--vad-silence" then
      match rest with
      | v :: rest' =>
        match stoi v with
        | some n => parseArgs stoi stof rest' { cfg with silence_trigger_ms := n }
        | none => none
      | [] => none
    else if arg = "--host" then
      match rest with
      | v :: rest' => parseArgs stoi stof rest' { cfg with host := v }
      | [] => none
    else if arg = "--token" then
      match rest with
      | v :: rest' => parseArgs stoi stof rest' { cfg with auth_token := v }
      | [] => none
    else none

/-- The exit code of `main`: `1` when `parseArgs` returns false, `1` when
`server.init()` fails, otherwise the normal-shutdown `0`. -/
def mainExitCode (parsed : Option ServerConfig) (initOk : Bool) : ℤ :=
  match parsed with
  | none => 1
  | some _ => if initOk then 0 else 1

/-! ## Helper lemmas -/

/-- An `if` whose branches are both `none` is `none`. -/
theorem iteNone {c : Prop} [Decidable c] {x y : Option ServerConfig}
    (hx : x = none) (hy : y = none) : (if c then x else y) = none := by
  by_cases h : c
  · rw [if_pos h]; exact hx
  · rw [if_neg h]; exact hy

/-- An `if` with false condition and `none` else-branch is `none`. -/
theorem iteNoneNeg {c : Prop} [Decidable c] {x y : Option ServerConfig}
    (hc : ¬ c) (hy : y = none) : (if c then x else y) = none := by
  rw [if_neg hc]; exact hy

/-- Without a `--vad-model` argument the validation block at the end of
`parseArgs` fails: the empty default `vad_model_path` is never
overwritten, so parsing returns false. -/
theorem parseArgs_none_of_no_vad (stoi : String → Option ℤ) (stof : String → Option ℚ) :
    ∀ (args : List String) (cfg : ServerConfig), "--vad-model" ∉ args →
      cfg.vad_model_path = "" → parseArgs stoi stof args cfg = none
  | [], _, _, h2 => by rw [parseArgs.eq_1, if_pos h2]
  | [arg], cfg, h1, h2 => by
    rw [parseArgs.eq_3]
    exact iteNone rfl (iteNone rfl (iteNone rfl (iteNone rfl (iteNone rfl (iteNone rfl
      (iteNone rfl (iteNone rfl (iteNone rfl
      (iteNone (parseArgs_none_of_no_vad stoi stof [] _ (List.not_mem_nil _) h2)
      (iteNone (parseArgs_none_of_no_vad stoi stof [] _ (List.not_mem_nil _) h2)
      (iteNone rfl (iteNone rfl (iteNone rfl (iteNone rfl (iteNone rfl rfl)))))))))))))))
  | arg :: v :: rest', cfg, h1, h2 => by
    have hne : ¬(arg = "--vad-model") := fun e => h1 (by rw [← e]; exact List.mem_cons_self _ _)
    have hvrest : "--vad-model" ∉ v :: rest' := fun hr => h1 (List.mem_cons_of_mem _ hr)
    have hrest : "--vad-model" ∉ rest' := fun hr => hvrest (List.mem_cons_of_mem _ hr)
    rw [parseArgs.eq_2]
    refine iteNone rfl (iteNone (parseArgs_none_of_no_vad stoi stof rest' _ hrest h2)
      (iteNone ?p (iteNone ?c (iteNone ?t
      (iteNone (parseArgs_none_of_no_vad stoi stof rest' _ hrest h2)
      (iteNone ?st (iteNone ?le (iteNone ?ke
      (iteNone (parseArgs_none_of_no_vad stoi stof (v :: rest') _ hvrest h2)
      (iteNone (parseArgs_none_of_no_vad stoi stof (v :: rest') _ hvrest h2)
      (iteNoneNeg hne
      (iteNone ?vt (iteNone ?vs
      (iteNone (parseArgs_none_of_no_vad stoi stof rest' _ hrest h2)
      (iteNone (parseArgs_none_of_no_vad stoi stof rest' _ hrest h2) rfl)))))))))))))))
    case p =>
      cases stoi v with
      | none => rfl
      | some z => exact parseArgs_none_of_no_vad stoi stof rest' _ hrest h2
    case c =>
      cases stoi v with
      | none => rfl
      | some z => exact parseArgs_none_of_no_vad stoi stof rest' _ hrest h2
    case t =>
      cases stoi v with
      | none => rfl
      | some z => exact parseArgs_none_of_no_vad stoi stof rest' _ hrest h2
    case st =>
      cases stoi v with
      | none => rfl
      | some z => exact parseArgs_none_of_no_vad stoi stof rest' _ hrest h2
    case le =>
      cases stoi v with
      | none => rfl
      | some z => exact parseArgs_none_of_no_vad stoi stof rest' _ hrest h2
    case ke =>
      cases stoi v with
      | none => rfl
      | some z => exact parseArgs_none_of_no_vad stoi stof rest' _ hrest h2
    case vt =>
      cases stof v with
      | none => rfl
      | some z => exact parseArgs_none_of_no_vad stoi stof rest' _ hrest h2
    case vs =>
      cases stoi v with
      | none => rfl
      | some z => exact parseArgs_none_of_no_vad stoi stof rest' _ hrest h2

/-- The pop-front loop keeps exactly the last `maxSamples` elements. -/
theorem trimLoop_eq_drop (m : ℕ) : ∀ l : List ℚ, trimLoop m l = l.drop (l.length - m)
  | [] => by simp [trimLoop]
  | x :: t => by
    rw [trimLoop]
    by_cases h : (x :: t).length > m
    · rw [if_pos h, trimLoop_eq_drop m t]
      have he : (x :: t).length - m = (t.length - m) + 1 := by
        simp only [List.length_cons, gt_iff_lt] at h ⊢
        omega
      rw [he, List.drop_succ_cons]
    · rw [if_neg h]
      have he : (x :: t).length - m = 0 := by
        simp only [List.length_cons, gt_iff_lt, not_lt] at h ⊢
        omega
      rw [he, List.drop_zero]

/-- Keeping the last `m` elements, appending, and keeping the last `m`
again is the same as appending and keeping the last `m` once. -/
theorem drop_tail_append (m : ℕ) (a ys : List ℚ) :
    (a.drop (a.length - m) ++ ys).drop ((a.drop (a.length - m) ++ ys).length - m)
      = (a ++ ys).drop ((a ++ ys).length - m) := by
  by_cases hm : a.length ≤ m
  · have h0 : a.length - m = 0 := by omega
    rw [h0, List.drop_zero]
  · have hlen : (a.drop (a.length - m)).length = m := by
      rw [List.length_drop]
      omega
    rw [List.drop_append_eq_append_drop, List.drop_append_eq_append_drop, List.drop_drop]
    have e2 : ((a.drop (a.length - m) ++ ys).length - m) - (a.drop (a.length - m)).length
        = ((a ++ ys).length - m) - a.length := by
      rw [List.length_append, hlen, List.length_append]
      omega
    have e3 : a.length - m + ((a.drop (a.length - m) ++ ys).length - m)
        = (a ++ ys).length - m := by
      rw [List.length_append, hlen, List.length_append]
      omega
    rw [e2, e3]

/-- A sequence of `pushFloat` calls on a buffer within capacity leaves
exactly the last `max_samples` of the initial contents followed by all
pushed samples. -/
theorem pushFloatBatches_buffer (m rate : ℕ) :
    ∀ (batches : List (List ℚ)) (buf : List ℚ), buf.length ≤ m →
      (AudioBuffer.pushFloatBatches { buffer := buf, max_samples := m, sample_rate := rate } batches).buffer
        = (buf ++ batches.flatten).drop ((buf ++ batches.flatten).length - m)
  | [], buf, hb => by
    have h0 : buf.length - m = 0 := by omega
    simp only [AudioBuffer.pushFloatBatches, List.foldl_nil, List.flatten_nil, List.append_nil]
    rw [h0, List.drop_zero]
  | s :: rest, buf, hb => by
    show (AudioBuffer.pushFloatBatches (AudioBuffer.pushFloat ⟨buf, m, rate⟩ s) rest).buffer = _
    rw [show AudioBuffer.pushFloat ⟨buf, m, rate⟩ s
        = ⟨(buf ++ s).drop ((buf ++ s).length - m), m, rate⟩ from by
      unfold AudioBuffer.pushFloat
      rw [trimLoop_eq_drop]]
    rw [pushFloatBatches_buffer m rate rest _ (by rw [List.length_drop]; omega)]
    rw [List.flatten_cons, ← List.append_assoc]
    exact drop_tail_append m (buf ++ s) rest.flatten

/-- `push` is `pushFloat` after `int16ToFloat` normalization, batchwise. -/
theorem pushBatches_eq_pushFloatBatches (batches : List (List ℤ)) :
    ∀ b : AudioBuffer, AudioBuffer.pushBatches b batches
      = AudioBuffer.pushFloatBatches b (batches.map (fun s => s.map int16ToFloat)) := by
  induction batches with
  | nil => intro b; rfl
  | cons s rest ih => intro b; exact ih (b.push s)

/-! ## Concrete fixtures used by counterexamples and witnesses -/

/-- A configuration with the default pool size `n_contexts = 2`. -/
def cfgPool2 : ServerConfig := { n_contexts := 2 }

/-- A configuration on which the short-utterance discard branch is
reachable (`silence_trigger_ms < min_speech_ms`, as in the unit test
`test_vad_state_machine.cpp`). -/
def cfgShort : ServerConfig := { silence_trigger_ms := 500, min_speech_ms := 2000 }

/-- A session in `SPEAKING` with buffered audio, overlap, pending text and
a held slot. -/
def speakingSession : Session :=
  { id := "s"
    audio := { buffer := [0], max_samples := 480000, sample_rate := 16000 }
    pcmf32_old := [1/2]
    last_text := "t"
    context_slot := some 0
    active := true
    inference_running := false
    speech_state := SpeechState.SPEAKING
    speech_start_ms := 0
    last_speech_ms := 100
    pending_text := "hi"
    outgoing_messages := [] }

/-- A session in `ENDING` holding slot 0, with empty accumulated audio
(so the final inference is skipped). -/
def endingSession : Session :=
  { id := "e"
    audio := { buffer := [1], max_samples := 480000, sample_rate := 16000 }
    pcmf32_old := []
    last_text := "y"
    context_slot := some 0
    active := true
    inference_running := false
    speech_state := SpeechState.ENDING
    speech_start_ms := 0
    last_speech_ms := 0
    pending_text := "x"
    outgoing_messages := [] }

/-! ## C9 -/

/-- C9: `push` normalizes every int16 sample `i` to `i / 32768.0`
(`int16ToFloat`, exact in binary32); the endpoints map to `-1.0`, `0.0`
and `32767/32768 ≈ 0.99997`, each within `1e-4` of the pinned values. -/
theorem C9_int16_normalization :
    (∀ i : ℤ, int16ToFloat i = (i : ℚ) / 32768)
    ∧ (∀ b : AudioBuffer, ∀ samples : List ℤ,
        (b.push samples).buffer = trimLoop b.max_samples (b.buffer ++ samples.map int16ToFloat))
    ∧ int16ToFloat (-32768) = -1
    ∧ int16ToFloat 0 = 0
    ∧ |int16ToFloat (-32768) - (-1)| < 1/10000
    ∧ |int16ToFloat 32767 - 99997/100000| < 1/10000 := by
  refine ⟨fun i => rfl, fun b samples => rfl, by norm_num [int16ToFloat],
    by norm_num [int16ToFloat], by norm_num [int16ToFloat], ?_⟩
  rw [int16ToFloat]
  rw [abs_sub_lt_iff]
  norm_num

/-! ## C10 -/

/-- C10: `onAudioReceived` with an unregistered session id, or with a
session whose `active` flag is false, changes nothing: the server state
is returned untouched and no error is produced. -/
theorem C10_onAudioReceived_noop (st : ServerState) (id : String) (data : List ℤ)
    (h : st.sessions.find? (fun p => p.1 = id) = none
      ∨ ∃ p, st.sessions.find? (fun q => q.1 = id) = some p ∧ p.2.active = false) :
    onAudioReceived st id data = st := by
  unfold onAudioReceived
  rcases h with h | ⟨p, hp, ha⟩
  · rw [h]
  · rw [hp]
    simp [ha]

/-- Witness for C10 at a concrete input: audio for an id that was never
registered is dropped. -/
theorem C10_witness :
    onAudioReceived (initState cfgPool2) "ghost" [5, 6] = initState cfgPool2 :=
  C10_onAudioReceived_noop (initState cfgPool2) "ghost" [5, 6] (Or.inl rfl)

/-! ## C3 -/

/-- C3: the claim says `emitFinal` releases the held slot back to the
pool; the code resets every other field but keeps the slot.  Evaluating
`emitFinal` on a session in `ENDING` that holds slot 0: state, texts and
buffers are all reset, yet `context_slot` is still `some 0`, and the
whisper pass never modifies the context pool at all (the architecture
document and the context-leasing end-to-end test expect the release). -/
theorem C3_reset_keeps_slot :
    (emitFinal (fun _ => none) endingSession).speech_state = SpeechState.IDLE
    ∧ (emitFinal (fun _ => none) endingSession).pending_text = ""
    ∧ (emitFinal (fun _ => none) endingSession).pcmf32_old = []
    ∧ (emitFinal (fun _ => none) endingSession).last_text = ""
    ∧ (emitFinal (fun _ => none) endingSession).audio.getAll = []
    ∧ (emitFinal (fun _ => none) endingSession).context_slot = some 0
    ∧ (∀ cfg vad iP iF st, (whisperTick cfg vad iP iF st).context_pool = st.context_pool) :=
  ⟨rfl, rfl, rfl, rfl, rfl, rfl, fun _ _ _ _ _ => rfl⟩

/-! ## C1 -/

/-- C1: the claim says all 5 connections opened against a pool of size 2
receive `ready`; the code instead acquires a context inside
`createSession` and the open handler rejects the connection (error frame
plus close) when the pool is exhausted, so exactly 2 clients get `ready`
and 3 get the error (the architecture document promises "no connection
rejection" and the context-leasing end-to-end test expects all 5 to be
ready). -/
theorem C1_oversubscription_rejects :
    (openMany cfgPool2 (initState cfgPool2)
        ["session_1", "session_2", "session_3", "session_4", "session_5"]).2.map Msg.isReady
      = [true, true, false, false, false]
    ∧ (openMany cfgPool2 (initState cfgPool2)
        ["session_1", "session_2", "session_3", "session_4", "session_5"]).2.countP Msg.isReady = 2
    ∧ (openMany cfgPool2 (initState cfgPool2)
        ["session_1", "session_2", "session_3", "session_4", "session_5"]).2.countP Msg.isError = 3
    ∧ (createSession (initState cfgPool2) "session_1").1.isSome = true
    ∧ (openMany cfgPool2 (initState cfgPool2)
        ["session_1", "session_2", "session_3", "session_4", "session_5"]).1.sessions.length = 2 :=
  ⟨rfl, rfl, rfl, rfl, rfl⟩

/-! ## C2 -/

/-- C2: counterexample to the claimed discard side effects.  A `SPEAKING`
session that meets the short-utterance condition transitions to `IDLE`,
but `pending_text`, `pcmf32_old`, the audio ring and the slot reference
are all left in place, contradicting the claimed "release slot, clear
pcm_old, clear pending_text, clear audio". -/
theorem C2_counterexample :
    (updateVADState cfgShort 0 speakingSession 600).speech_state = SpeechState.IDLE
    ∧ (updateVADState cfgShort 0 speakingSession 600).pending_text ≠ ""
    ∧ (updateVADState cfgShort 0 speakingSession 600).pcmf32_old ≠ []
    ∧ (updateVADState cfgShort 0 speakingSession 600).audio.getAll ≠ []
    ∧ (updateVADState cfgShort 0 speakingSession 600).context_slot ≠ none := by
  have hEq : updateVADState cfgShort 0 speakingSession 600
      = { speakingSession with speech_state := SpeechState.IDLE } := by
    unfold updateVADState
    rw [if_neg (by decide : ¬(speakingSession.audio.getLastMs cfgShort.vad_check_ms = []))]
    show (if cfgShort.vad_threshold < (0 : ℚ) then _ else _) = _
    rw [if_neg (by norm_num [cfgShort] : ¬(cfgShort.vad_threshold < (0 : ℚ)))]
    rw [if_pos (by decide : (600 : ℤ) - speakingSession.last_speech_ms ≥ cfgShort.silence_trigger_ms)]
    rw [if_neg (by decide : ¬((600 : ℤ) - speakingSession.speech_start_ms ≥ cfgShort.min_speech_ms))]
  refine ⟨?_, ?_, ?_, ?_, ?_⟩ <;> rw [hEq] <;> decide

/-- C2 (amended): on the short-utterance silence condition the session
moves from `SPEAKING` to `IDLE` and nothing else happens: the slot
reference, `pcmf32_old`, `pending_text`, the audio ring and the outgoing
queue are untouched (in particular no final is emitted for the
utterance). -/
theorem C2_short_utterance_discard (cfg : ServerConfig) (prob : ℚ) (s : Session) (now : ℤ)
    (hgate : s.audio.getLastMs cfg.vad_check_ms ≠ [])
    (hstate : s.speech_state = SpeechState.SPEAKING)
    (hns : ¬ cfg.vad_threshold < prob)
    (hsilence : now - s.last_speech_ms ≥ cfg.silence_trigger_ms)
    (hshort : now - s.speech_start_ms < cfg.min_speech_ms) :
    updateVADState cfg prob s now = { s with speech_state := SpeechState.IDLE } := by
  unfold updateVADState
  rw [if_neg hgate, hstate]
  show (if cfg.vad_threshold < prob then _ else _) = _
  rw [if_neg hns, if_pos hsilence, if_neg (not_le.mpr hshort)]

/-- Witness for C2 at a concrete input. -/
theorem C2_witness :
    updateVADState cfgShort 0 speakingSession 600
      = { speakingSession with speech_state := SpeechState.IDLE } :=
  C2_short_utterance_discard cfgShort 0 speakingSession 600
    (by decide) rfl (by norm_num [cfgShort]) (by decide) (by decide)

/-! ## C4 -/

/-- C4: counterexample.  With the vad model option absent (`-m` only),
`parseArgs` fails the required-argument validation and `main` exits with
code 1 — the claim says the server would still start with VAD
disabled. -/
theorem C4_counterexample :
    parseArgs (fun _ => none) (fun _ => none) ["-m", "model.bin"] {} = none
    ∧ mainExitCode (parseArgs (fun _ => none) (fun _ => none) ["-m", "model.bin"] {}) true = 1 :=
  ⟨rfl, rfl⟩

/-- C4 (amended): for every argument list that does not contain
`--vad-model`, `parseArgs` (from the default configuration) returns
failure and the process exits with code 1; the VAD-disabled mode of the
engine is unreachable through the command line. -/
theorem C4_vad_model_required (stoi : String → Option ℤ) (stof : String → Option ℚ)
    (args : List String) (h : "--vad-model" ∉ args) :
    parseArgs stoi stof args {} = none
    ∧ mainExitCode (parseArgs stoi stof args {}) true = 1 := by
  have hn := parseArgs_none_of_no_vad stoi stof args {} h rfl
  exact ⟨hn, by rw [hn]; rfl⟩

/-- Witness for C4 at a concrete input. -/
theorem C4_witness :
    parseArgs (fun _ => none) (fun _ => none) ["--no-gpu", "-l", "en"] {} = none
    ∧ mainExitCode (parseArgs (fun _ => none) (fun _ => none) ["--no-gpu", "-l", "en"] {}) true = 1 :=
  C4_vad_model_required (fun _ => none) (fun _ => none) ["--no-gpu", "-l", "en"] (by decide)

/-! ## C5 -/

/-- C5: the partial-inference window is the last `keep` samples of
`pcmf32_old` followed by the new audio, where
`keep = min(pcm_old.len(), max(0, n_keep + n_length - new.len()))`,
`n_keep = keep_ms*rate/1000` and `n_length = length_ms*rate/1000`
(`nSamplesKeep` / `nSamplesLen`); afterwards `pcmf32_old` equals that
window, whether or not the engine call succeeds. -/
theorem C5_sliding_window (cfg : ServerConfig) (infer : List ℚ → Option String) (s : Session)
    (hslot : s.context_slot ≠ none)
    (hnew : s.audio.getAll ≠ []) :
    buildWindow cfg s.pcmf32_old s.audio.getAll
      = s.pcmf32_old.drop (s.pcmf32_old.length -
          (min (s.pcmf32_old.length : ℤ)
            (max 0 (nSamplesKeep cfg + nSamplesLen cfg - (s.audio.getAll.length : ℤ)))).toNat)
        ++ s.audio.getAll
    ∧ (runInference cfg infer s).pcmf32_old = buildWindow cfg s.pcmf32_old s.audio.getAll := by
  constructor
  · unfold buildWindow nSamplesTake
    by_cases hold : s.pcmf32_old = []
    · simp [hold]
    · rw [if_neg hold]
  · unfold runInference
    rw [if_neg hslot]
    simp only [AudioBuffer.getAll] at hnew ⊢
    rw [if_neg hnew]
    rcases h : infer (buildWindow cfg s.pcmf32_old s.audio.buffer) with _ | raw
    · simp [AudioBuffer.getAll, h]
    · simp only [AudioBuffer.getAll, h]
      split_ifs <;> simp [Session.enqueueMessage]

/-- A `SPEAKING` session with two new samples and a one-sample overlap,
used as the C5 witness input. -/
def windowSession : Session :=
  { id := "w"
    audio := { buffer := [1/2, 1/4], max_samples := 480000, sample_rate := 16000 }
    pcmf32_old := [3]
    last_text := ""
    context_slot := some 1
    active := true
    inference_running := false
    speech_state := SpeechState.SPEAKING
    speech_start_ms := 0
    last_speech_ms := 0
    pending_text := ""
    outgoing_messages := [] }

/-- Witness for C5 at a concrete input. -/
theorem C5_witness :
    buildWindow cfgPool2 windowSession.pcmf32_old windowSession.audio.getAll
      = windowSession.pcmf32_old.drop (windowSession.pcmf32_old.length -
          (min (windowSession.pcmf32_old.length : ℤ)
            (max 0 (nSamplesKeep cfgPool2 + nSamplesLen cfgPool2
              - (windowSession.audio.getAll.length : ℤ)))).toNat)
        ++ windowSession.audio.getAll
    ∧ (runInference cfgPool2 (fun _ => some " hello ") windowSession).pcmf32_old
      = buildWindow cfgPool2 windowSession.pcmf32_old windowSession.audio.getAll :=
  C5_sliding_window cfgPool2 (fun _ => some " hello ") windowSession (by decide) (by decide)

/-! ## C8 -/

/-- C8: after pushing batches totalling `k` samples into a fresh ring of
capacity `m` — via `push` (with `int16ToFloat` normalization) or
`pushFloat` — the ring holds exactly the last `min(k, m)` pushed values in
push order; the front-drop loop (`trimLoop`) removes the oldest samples
whenever the size exceeds `max_samples`. -/
theorem C8_ring_drop_rule (m rate : ℕ) (batchesI : List (List ℤ)) (batchesF : List (List ℚ)) :
    (AudioBuffer.pushBatches { buffer := [], max_samples := m, sample_rate := rate } batchesI).buffer
      = (batchesI.flatten.map int16ToFloat).drop (batchesI.flatten.length - m)
    ∧ (AudioBuffer.pushBatches { buffer := [], max_samples := m, sample_rate := rate } batchesI).buffer.length
      = min batchesI.flatten.length m
    ∧ (AudioBuffer.pushFloatBatches { buffer := [], max_samples := m, sample_rate := rate } batchesF).buffer
      = batchesF.flatten.drop (batchesF.flatten.length - m)
    ∧ (AudioBuffer.pushFloatBatches { buffer := [], max_samples := m, sample_rate := rate } batchesF).buffer.length
      = min batchesF.flatten.length m := by
  have hF := pushFloatBatches_buffer m rate batchesF [] (Nat.zero_le m)
  simp only [List.nil_append] at hF
  have hI0 := pushFloatBatches_buffer m rate (batchesI.map (fun s => s.map int16ToFloat)) []
    (Nat.zero_le m)
  simp only [List.nil_append] at hI0
  have hI : (AudioBuffer.pushBatches ⟨[], m, rate⟩ batchesI).buffer
      = (batchesI.flatten.map int16ToFloat).drop
          ((batchesI.flatten.map int16ToFloat).length - m) := by
    rw [pushBatches_eq_pushFloatBatches, hI0, ← List.map_flatten]
  refine ⟨?_, ?_, ?_, ?_⟩
  · rw [hI, List.length_map]
  · rw [hI, List.length_drop, List.length_map]
    omega
  · rw [hF]
  · rw [hF, List.length_drop]
    omega

/-! ## C7 -/

/-- `runInference` leaves the outgoing queue alone or appends one
`partial` message. -/
theorem runInference_outgoing (cfg : ServerConfig) (infer : List ℚ → Option String) (s : Session) :
    (runInference cfg infer s).outgoing_messages = s.outgoing_messages
    ∨ ∃ t, (runInference cfg infer s).outgoing_messages
        = s.outgoing_messages ++ [Msg.Partial t] := by
  unfold runInference
  by_cases h1 : s.context_slot = none
  · rw [if_pos h1]; exact Or.inl rfl
  · rw [if_neg h1]
    by_cases h2 : s.audio.getAll = []
    · rw [if_pos h2]; exact Or.inl rfl
    · rw [if_neg h2]
      rcases h3 : infer (buildWindow cfg s.pcmf32_old s.audio.getAll) with _ | raw
      · refine Or.inl ?_
        simp only [AudioBuffer.getAll] at h3
        simp [AudioBuffer.getAll, h3]
      · simp only [AudioBuffer.getAll] at h3
        simp only [AudioBuffer.getAll, h3]
        split_ifs with h4
        · exact Or.inr ⟨trimText raw, by simp [Session.enqueueMessage]⟩
        · exact Or.inl rfl

/-- With VAD disabled the per-session whisper pass can only add a
`partial` message: the `ENDING` branch is structurally unreachable. -/
theorem whisperTickSession_outgoing_noVad (cfg : ServerConfig)
    (iP iF : List ℚ → Option String) (s : Session) :
    (whisperTickSession cfg false iP iF s).outgoing_messages = s.outgoing_messages
    ∨ ∃ t, (whisperTickSession cfg false iP iF s).outgoing_messages
        = s.outgoing_messages ++ [Msg.Partial t] := by
  unfold whisperTickSession
  rw [if_pos rfl]
  by_cases hc : (!s.inference_running && s.audio.hasMinDuration cfg.step_ms) = true
  · rw [if_pos hc]; exact runInference_outgoing cfg iP s
  · rw [if_neg hc]; exact Or.inl rfl

/-- No session's outgoing queue holds a `final` message. -/
def noFinalQueued (st : ServerState) : Prop :=
  ∀ p ∈ st.sessions, ∀ m ∈ p.2.outgoing_messages, m.isFinal = false

/-- Every step of a VAD-disabled run preserves `noFinalQueued`. -/
theorem step_noFinal (cfg : ServerConfig) (st st2 : ServerState)
    (h : Step cfg false st st2) (hI : noFinalQueued st) : noFinalQueued st2 := by
  cases h with
  | openStep id hfind =>
    intro p hp m hm
    unfold openHandler createSession at hp
    rcases hacq : acquireContext st.context_pool with ⟨o, pool2⟩
    rw [hacq] at hp
    cases o with
    | none =>
      simp only at hp
      exact hI p hp m hm
    | some i =>
      simp only at hp
      rcases List.mem_append.mp hp with hp1 | hp2
      · exact hI p hp1 m hm
      · simp only [List.mem_singleton] at hp2
        rw [hp2] at hm
        simp at hm
  | closeStep id =>
    intro p hp m hm
    unfold destroySession at hp
    rcases hfind : st.sessions.find? (fun q => q.1 = id) with _ | pr
    · rw [hfind] at hp
      exact hI p hp m hm
    · rw [hfind] at hp
      simp only at hp
      exact hI p ((List.eraseP_sublist _).subset hp) m hm
  | audioStep id data =>
    intro p hp m hm
    unfold onAudioReceived at hp
    rcases hfind : st.sessions.find? (fun q => q.1 = id) with _ | pr
    · rw [hfind] at hp
      exact hI p hp m hm
    · simp only [hfind] at hp
      by_cases ha : pr.2.active = true
      · rw [if_pos ha] at hp
        simp only at hp
        obtain ⟨q, hq, hpq⟩ := List.mem_map.mp hp
        by_cases hk : q.1 = id
        · rw [if_pos hk] at hpq
          rw [← hpq] at hm
          exact hI q hq m hm
        · rw [if_neg hk] at hpq
          rw [← hpq] at hm
          exact hI q hq m hm
      · rw [if_neg ha] at hp
        exact hI p hp m hm
  | vadStep probs now hvad => exact absurd hvad (by simp)
  | whisperStep iP iF =>
    intro p hp m hm
    unfold whisperTick at hp
    simp only at hp
    obtain ⟨q, hq, hpq⟩ := List.mem_map.mp hp
    by_cases ha : q.2.active = true
    · rw [if_pos ha] at hpq
      rw [← hpq] at hm
      simp only at hm
      rcases whisperTickSession_outgoing_noVad cfg iP iF q.2 with he | ⟨t, he⟩
      · rw [he] at hm
        exact hI q hq m hm
      · rw [he] at hm
        rcases List.mem_append.mp hm with hm1 | hm2
        · exact hI q hq m hm1
        · simp only [List.mem_singleton] at hm2
          rw [hm2]
          rfl
    · rw [if_neg ha] at hpq
      rw [← hpq] at hm
      exact hI q hq m hm
  | flushStep id =>
    intro p hp m hm
    unfold flushSession at hp
    simp only at hp
    obtain ⟨q, hq, hpq⟩ := List.mem_map.mp hp
    by_cases hk : q.1 = id
    · rw [if_pos hk] at hpq
      rw [← hpq] at hm
      simp at hm
    · rw [if_neg hk] at hpq
      rw [← hpq] at hm
      exact hI q hq m hm
  | stopStep =>
    intro p hp m hm
    simp [stopServer] at hp

/-- `noFinalQueued` holds in every reachable state of a VAD-disabled
run. -/
theorem reachable_noFinal (cfg : ServerConfig) (st : ServerState)
    (h : Reachable cfg false st) : noFinalQueued st := by
  unfold Reachable at h
  induction h with
  | refl => intro p hp _ _; simp [initState] at hp
  | tail hsteps hstep ih => exact step_noFinal cfg _ _ hstep ih

/-- C7: in every run with no VAD model configured (`vad_ctx_` null, so
the `vad = false` transition system), no `final` message is ever present
in any session's outgoing queue: the inference loop runs at most partial
inference and the `emitFinal` branch is unreachable. -/
theorem C7_no_final_without_vad (cfg : ServerConfig) (st : ServerState)
    (h : Reachable cfg false st) :
    st.sessions.any (fun p => p.2.outgoing_messages.any Msg.isFinal) = false := by
  have hI := reachable_noFinal cfg st h
  rw [List.any_eq_false]
  intro p hp
  simp only [Bool.not_eq_true, List.any_eq_false]
  intro m hm
  simp [hI p hp m hm]

/-- Witness for C7: the state after one `open` step of a VAD-disabled
run. -/
theorem C7_witness :
    ((openHandler cfgPool2 (initState cfgPool2) "session_1").1.sessions.any
      (fun p => p.2.outgoing_messages.any Msg.isFinal)) = false :=
  C7_no_final_without_vad cfgPool2 (openHandler cfgPool2 (initState cfgPool2) "session_1").1
    (Relation.ReflTransGen.tail Relation.ReflTransGen.refl
      (Step.openStep (initState cfgPool2) "session_1" rfl))

/-! ## C6 -/

theorem acquireContext_none : ∀ pool : List ContextSlot,
    (acquireContext pool).1 = none → (acquireContext pool).2 = pool
  | [] => fun _ => rfl
  | slot :: rest => by
    by_cases hs : slot.in_use = false
    · intro h
      rw [acquireContext, if_pos hs] at h
      simp at h
    · intro h
      rw [acquireContext, if_neg hs] at h
      rw [acquireContext, if_neg hs]
      simp only at h ⊢
      rw [acquireContext_none rest h]

theorem acquireContext_some : ∀ (pool : List ContextSlot) (i : ℕ),
    (acquireContext pool).1 = some i →
    ∃ l r s, pool = l ++ s :: r ∧ s.in_use = false ∧ s.slot_id = i
      ∧ (acquireContext pool).2 = l ++ { s with in_use := true } :: r
  | [], i => by
    intro h
    simp [acquireContext] at h
  | slot :: rest, i => by
    intro h
    by_cases hs : slot.in_use = false
    · rw [acquireContext, if_pos hs] at h
      simp only [Option.some.injEq] at h
      refine ⟨[], rest, slot, rfl, hs, h, ?_⟩
      rw [acquireContext, if_pos hs]
      simp
    · rw [acquireContext, if_neg hs] at h
      simp only at h
      obtain ⟨l, r, s, hpool, hsu, hsid, hres⟩ := acquireContext_some rest i h
      refine ⟨slot :: l, r, s, by rw [List.cons_append, hpool], hsu, hsid, ?_⟩
      rw [acquireContext, if_neg hs]
      simp only
      rw [hres, List.cons_append]

theorem releaseContext_map_slotId (pool : List ContextSlot) (o : Option ℕ) :
    (releaseContext pool o).map ContextSlot.slot_id = pool.map ContextSlot.slot_id := by
  cases o with
  | none => rfl
  | some i =>
    rw [releaseContext, List.map_map]
    apply List.map_congr_left
    intro s _
    by_cases h : s.slot_id = i
    · simp [h]
    · simp [h]

/-- Number of sessions holding a reference to slot `i`. -/
def refCount (sessions : List (String × Session)) (i : ℕ) : ℕ :=
  sessions.countP (fun p => decide (p.2.context_slot = some i))

/-- The pool bookkeeping invariant: slot ids are distinct, a slot is
`in_use` exactly when one session references it, and every referenced id
exists in the pool. -/
def PoolInv (st : ServerState) : Prop :=
  (st.context_pool.map ContextSlot.slot_id).Nodup
  ∧ (∀ slot ∈ st.context_pool, refCount st.sessions slot.slot_id = if slot.in_use then 1 else 0)
  ∧ (∀ p ∈ st.sessions, ∀ i, p.2.context_slot = some i
      → i ∈ st.context_pool.map ContextSlot.slot_id)

theorem refCount_append (a b : List (String × Session)) (i : ℕ) :
    refCount (a ++ b) i = refCount a i + refCount b i := by
  unfold refCount
  rw [List.countP_append]

theorem refCount_cons (p : String × Session) (l : List (String × Session)) (i : ℕ) :
    refCount (p :: l) i = refCount l i + if p.2.context_slot = some i then 1 else 0 := by
  unfold refCount
  rw [List.countP_cons]
  by_cases h : p.2.context_slot = some i
  · simp [h]
  · simp [h]

theorem refCount_nil (i : ℕ) : refCount [] i = 0 := rfl

theorem refCount_map (f : String × Session → String × Session)
    (hf : ∀ p, ((f p).2).context_slot = (p.2).context_slot)
    (ss : List (String × Session)) (i : ℕ) :
    refCount (ss.map f) i = refCount ss i := by
  induction ss with
  | nil => rfl
  | cons p rest ih =>
    rw [List.map_cons, refCount_cons, refCount_cons, ih, hf]

theorem poolInv_map_sessions (st : ServerState) (f : String × Session → String × Session)
    (hf : ∀ p, ((f p).2).context_slot = (p.2).context_slot) (hInv : PoolInv st) :
    PoolInv { st with sessions := st.sessions.map f } := by
  obtain ⟨hnd, hcnt, hmem⟩ := hInv
  refine ⟨hnd, ?_, ?_⟩
  · intro slot hs
    rw [refCount_map f hf]
    exact hcnt slot hs
  · intro p hp i hi
    obtain ⟨q, hq, hfq⟩ := List.mem_map.mp hp
    refine hmem q hq i ?_
    rw [← hf q, hfq]
    exact hi

theorem nodup_decomp_ne (l r : List ContextSlot) (s t : ContextSlot)
    (hnd : ((l ++ s :: r).map ContextSlot.slot_id).Nodup)
    (ht : t ∈ l ∨ t ∈ r) : t.slot_id ≠ s.slot_id := by
  rw [List.map_append, List.map_cons, List.nodup_append] at hnd
  obtain ⟨hndl, hndc, hdisj⟩ := hnd
  rcases ht with h | h
  · intro he
    exact hdisj (List.mem_map_of_mem _ h) (by rw [he]; exact List.mem_cons_self _ _)
  · rw [List.nodup_cons] at hndc
    intro he
    exact hndc.1 (by rw [← he]; exact List.mem_map_of_mem _ h)

theorem find_in_decomp (q : String × Session → Bool) :
    ∀ (l₁ : List (String × Session)) (a : String × Session) (l₂ : List (String × Session)),
      (∀ b ∈ l₁, ¬ q b) → q a → (l₁ ++ a :: l₂).find? q = some a
  | [], a, l₂, _, ha => by
    rw [List.nil_append, List.find?_cons_of_pos _ ha]
  | b :: t, a, l₂, h, ha => by
    rw [List.cons_append, List.find?_cons_of_neg _ (h b (List.mem_cons_self _ _))]
    exact find_in_decomp q t a l₂ (fun x hx => h x (List.mem_cons_of_mem _ hx)) ha

theorem runInference_slot (cfg : ServerConfig) (infer : List ℚ → Option String) (s : Session) :
    (runInference cfg infer s).context_slot = s.context_slot := by
  unfold runInference
  by_cases h1 : s.context_slot = none
  · rw [if_pos h1]
  · rw [if_neg h1]
    by_cases h2 : s.audio.getAll = []
    · rw [if_pos h2]
    · rw [if_neg h2]
      rcases h3 : infer (buildWindow cfg s.pcmf32_old s.audio.getAll) with _ | raw
      · simp only [AudioBuffer.getAll] at h3
        simp [AudioBuffer.getAll, h3]
      · simp only [AudioBuffer.getAll] at h3
        simp only [AudioBuffer.getAll, h3]
        split_ifs <;> simp [Session.enqueueMessage]

theorem emitFinal_slot (infer : List ℚ → Option String) (s : Session) :
    (emitFinal infer s).context_slot = s.context_slot := by
  unfold emitFinal
  by_cases h : s.speech_state ≠ SpeechState.ENDING
  · rw [if_pos h]
  · rw [if_neg h]
    dsimp only
    split_ifs <;> simp [Session.enqueueMessage]

theorem updateVADState_slot (cfg : ServerConfig) (prob : ℚ) (s : Session) (now : ℤ) :
    (updateVADState cfg prob s now).context_slot = s.context_slot := by
  unfold updateVADState
  by_cases hg : s.audio.getLastMs cfg.vad_check_ms = []
  · rw [if_pos hg]
  · rw [if_neg hg]
    rcases hss : s.speech_state with _ | _ | _ <;> simp only [hss] <;> split_ifs <;> rfl

theorem whisperTickSession_slot (cfg : ServerConfig) (vad : Bool)
    (iP iF : List ℚ → Option String) (s : Session) :
    (whisperTickSession cfg vad iP iF s).context_slot = s.context_slot := by
  unfold whisperTickSession
  by_cases hv : vad = false
  · rw [if_pos hv]
    split_ifs
    · exact runInference_slot cfg iP s
    · rfl
  · rw [if_neg hv]
    by_cases h1 : s.speech_state = SpeechState.SPEAKING
    · rw [if_pos h1]
      split_ifs
      · exact runInference_slot cfg iP s
      · rfl
    · rw [if_neg h1]
      by_cases h2 : s.speech_state = SpeechState.ENDING
      · rw [if_pos h2]
        exact emitFinal_slot iF s
      · rw [if_neg h2]

theorem poolInv_open (st : ServerState) (cfg : ServerConfig) (id : String)
    (hInv : PoolInv st) : PoolInv (openHandler cfg st id).1 := by
  obtain ⟨hnd, hcnt, hmem⟩ := hInv
  unfold openHandler createSession
  rcases hacq : acquireContext st.context_pool with ⟨o, pool2⟩
  cases o with
  | none =>
    simp only
    have h1 : (acquireContext st.context_pool).1 = none := by rw [hacq]
    have h2 : pool2 = st.context_pool := by
      have h3 := acquireContext_none st.context_pool h1
      rw [hacq] at h3
      exact h3
    rw [h2]
    exact ⟨hnd, hcnt, hmem⟩
  | some i =>
    simp only
    have h1 : (acquireContext st.context_pool).1 = some i := by rw [hacq]
    obtain ⟨l, r, s, hpool, hsu, hsid, hres⟩ := acquireContext_some st.context_pool i h1
    have hpool2 : pool2 = l ++ { s with in_use := true } :: r := by
      rw [hacq] at hres
      exact hres
    have hids : (l ++ ({ s with in_use := true } : ContextSlot) :: r).map ContextSlot.slot_id
        = st.context_pool.map ContextSlot.slot_id := by
      rw [hpool]
      simp
    have hnd2 : ((l ++ s :: r).map ContextSlot.slot_id).Nodup := by
      rw [← hpool]
      exact hnd
    rw [hpool2]
    refine ⟨?_, ?_, ?_⟩
    · rw [hids]
      exact hnd
    · intro slot hs2
      rw [refCount_append, refCount_cons]
      rcases List.mem_append.mp hs2 with hsl | hsr
      · have hne : slot.slot_id ≠ s.slot_id := nodup_decomp_ne l r s slot hnd2 (Or.inl hsl)
        rw [if_neg (fun he => hne (by rw [hsid]; exact (Option.some.inj he).symm))]
        have hc := hcnt slot (by rw [hpool]; exact List.mem_append_left _ hsl)
        rw [refCount_nil, hc]
        simp
      · rcases List.mem_cons.mp hsr with hhead | htail
        · rw [hhead]
          simp only
          rw [if_pos (by rw [hsid])]
          have hc := hcnt s (by rw [hpool]; exact List.mem_append_right _ (List.mem_cons_self _ _))
          rw [hsu] at hc
          simp only [Bool.false_eq_true, if_false] at hc
          rw [refCount_nil, hc]
          simp
        · have hne : slot.slot_id ≠ s.slot_id := nodup_decomp_ne l r s slot hnd2 (Or.inr htail)
          rw [if_neg (fun he => hne (by rw [hsid]; exact (Option.some.inj he).symm))]
          have hc := hcnt slot
            (by rw [hpool]; exact List.mem_append_right _ (List.mem_cons_of_mem _ htail))
          rw [refCount_nil, hc]
          simp
    · intro p hp i2 hi2
      rw [hids]
      rcases List.mem_append.mp hp with hp1 | hp2
      · exact hmem p hp1 i2 hi2
      · simp only [List.mem_singleton] at hp2
        rw [hp2] at hi2
        simp only at hi2
        have h4 : i2 = i := (Option.some.inj hi2).symm
        rw [h4, ← hsid]
        rw [hpool]
        exact List.mem_map_of_mem _ (List.mem_append_right _ (List.mem_cons_self _ _))

theorem poolInv_close (st : ServerState) (id : String)
    (hInv : PoolInv st) : PoolInv (destroySession st id) := by
  obtain ⟨hnd, hcnt, hmem⟩ := hInv
  unfold destroySession
  rcases hfind : st.sessions.find? (fun q => q.1 = id) with _ | pr
  · rw [hfind]
    exact ⟨hnd, hcnt, hmem⟩
  · rw [hfind]
    simp only
    have hmempr := List.mem_of_find?_eq_some hfind
    have hqpr := List.find?_some hfind
    obtain ⟨a, l₁, l₂, hl₁, ha, hdec, herase⟩ :=
      @List.exists_of_eraseP _ (fun q => decide (q.1 = id)) st.sessions pr hmempr hqpr
    have hpa : pr = a := by
      have h2 := hfind
      rw [hdec, find_in_decomp _ l₁ a l₂ (fun b hb => by simpa using hl₁ b hb) ha] at h2
      exact (Option.some.inj h2).symm
    rw [herase, hpa]
    cases ho : a.2.context_slot with
    | none =>
      refine ⟨hnd, ?_, ?_⟩
      · intro slot hs
        have he : refCount (l₁ ++ l₂) slot.slot_id = refCount st.sessions slot.slot_id := by
          rw [hdec, refCount_append, refCount_append, refCount_cons, ho]
          simp
        rw [he]
        exact hcnt slot hs
      · intro p hp i hi
        refine hmem p ?_ i hi
        rw [hdec]
        rcases List.mem_append.mp hp with h | h
        · exact List.mem_append_left _ h
        · exact List.mem_append_right _ (List.mem_cons_of_mem _ h)
    | some i =>
      refine ⟨?_, ?_, ?_⟩
      · rw [releaseContext_map_slotId]
        exact hnd
      · intro slot hs
        rw [releaseContext] at hs
        obtain ⟨t, ht, hft⟩ := List.mem_map.mp hs
        by_cases hti : t.slot_id = i
        · rw [if_pos hti] at hft
          have hct := hcnt t ht
          have hsum : refCount st.sessions i = refCount l₁ i + (refCount l₂ i + 1) := by
            rw [hdec, refCount_append, refCount_cons, ho]
            simp
          have hbusy : t.in_use = true := by
            by_contra hb
            rw [Bool.not_eq_true] at hb
            rw [hb] at hct
            simp at hct
            rw [hti] at hct
            omega
          rw [hbusy] at hct
          simp at hct
          rw [hti] at hct
          rw [← hft]
          show refCount (l₁ ++ l₂) t.slot_id = if false = true then 1 else 0
          rw [hti, refCount_append]
          simp only [Bool.false_eq_true, if_false]
          omega
        · rw [if_neg hti] at hft
          rw [← hft]
          have he : refCount (l₁ ++ l₂) t.slot_id = refCount st.sessions t.slot_id := by
            rw [hdec, refCount_append, refCount_append, refCount_cons, ho]
            have : ¬((some i : Option ℕ) = some t.slot_id) :=
              fun he2 => hti (Option.some.inj he2).symm
            rw [if_neg this]
            omega
          rw [he]
          exact hcnt t ht
      · intro p hp i2 hi2
        rw [releaseContext_map_slotId]
        refine hmem p ?_ i2 hi2
        rw [hdec]
        rcases List.mem_append.mp hp with h | h
        · exact List.mem_append_left _ h
        · exact List.mem_append_right _ (List.mem_cons_of_mem _ h)

theorem foldlRelease_map_slotId :
    ∀ (ss : List (String × Session)) (pool : List ContextSlot),
      ((ss.foldl (fun pl p => releaseContext pl p.2.context_slot) pool).map ContextSlot.slot_id)
        = pool.map ContextSlot.slot_id
  | [], pool => rfl
  | p :: rest, pool => by
    show ((rest.foldl _ (releaseContext pool p.2.context_slot)).map ContextSlot.slot_id) = _
    rw [foldlRelease_map_slotId rest _, releaseContext_map_slotId]

theorem foldlRelease_busy :
    ∀ (ss : List (String × Session)) (pool : List ContextSlot) (t : ContextSlot),
      t ∈ ss.foldl (fun pl p => releaseContext pl p.2.context_slot) pool → t.in_use = true →
      ∃ t0 ∈ pool, t0.slot_id = t.slot_id ∧ t0.in_use = true
        ∧ ∀ p ∈ ss, p.2.context_slot ≠ some t0.slot_id
  | [], pool, t => fun ht hb => ⟨t, ht, rfl, hb, by simp⟩
  | p :: rest, pool, t => fun ht hb => by
    obtain ⟨t1, ht1, hid, hb1, hnone⟩ :=
      foldlRelease_busy rest (releaseContext pool p.2.context_slot) t ht hb
    cases hop : p.2.context_slot with
    | none =>
      rw [hop] at ht1
      refine ⟨t1, ht1, hid, hb1, ?_⟩
      intro q hq
      rcases List.mem_cons.mp hq with hq1 | hq2
      · rw [hq1, hop]
        simp
      · exact hnone q hq2
    | some j =>
      rw [hop] at ht1
      rw [releaseContext] at ht1
      obtain ⟨t0, ht0, hf0⟩ := List.mem_map.mp ht1
      by_cases hj : t0.slot_id = j
      · rw [if_pos hj] at hf0
        have : t1.in_use = false := by rw [← hf0]
        rw [this] at hb1
        simp at hb1
      · rw [if_neg hj] at hf0
        refine ⟨t0, ht0, by rw [hf0]; exact hid, by rw [hf0]; exact hb1, ?_⟩
        intro q hq
        rcases List.mem_cons.mp hq with hq1 | hq2
        · rw [hq1, hop]
          intro he
          exact hj (Option.some.inj he).symm
        · rw [hf0]
          exact hnone q hq2

theorem poolInv_stop (st : ServerState) (hInv : PoolInv st) : PoolInv (stopServer st) := by
  obtain ⟨hnd, hcnt, hmem⟩ := hInv
  refine ⟨?_, ?_, ?_⟩
  · show (((stopServer st).context_pool).map ContextSlot.slot_id).Nodup
    unfold stopServer
    simp only
    rw [foldlRelease_map_slotId]
    exact hnd
  · intro slot hs
    unfold stopServer at hs
    simp only at hs
    by_cases hb : slot.in_use = true
    · obtain ⟨t0, ht0, hid0, hb0, hnone⟩ := foldlRelease_busy st.sessions st.context_pool slot hs hb
      have hc := hcnt t0 ht0
      rw [hb0] at hc
      simp at hc
      have hpos : 0 < refCount st.sessions t0.slot_id := by omega
      obtain ⟨p, hpmem, hpref⟩ := List.countP_pos_iff.mp hpos
      rw [decide_eq_true_eq] at hpref
      exact absurd hpref (hnone p hpmem)
    · rw [Bool.not_eq_true] at hb
      rw [hb]
      simp [refCount, stopServer]
  · intro p hp i hi
    simp [stopServer] at hp

theorem poolInv_audio (st : ServerState) (id : String) (data : List ℤ)
    (hInv : PoolInv st) : PoolInv (onAudioReceived st id data) := by
  unfold onAudioReceived
  rcases hfind : st.sessions.find? (fun q => q.1 = id) with _ | pr
  · rw [hfind]
    exact hInv
  · simp only [hfind]
    by_cases ha : pr.2.active = true
    · rw [if_pos ha]
      exact poolInv_map_sessions st _ (fun p => by by_cases hk : p.1 = id <;> simp [hk]) hInv
    · rw [if_neg ha]
      exact hInv

theorem step_poolInv (cfg : ServerConfig) (vad : Bool) (st st2 : ServerState)
    (h : Step cfg vad st st2) (hInv : PoolInv st) : PoolInv st2 := by
  cases h with
  | openStep id hfind => exact poolInv_open st cfg id hInv
  | closeStep id => exact poolInv_close st id hInv
  | audioStep id data => exact poolInv_audio st id data hInv
  | vadStep probs now hvad =>
    exact poolInv_map_sessions st _
      (fun p => by
        by_cases ha : p.2.active = true <;>
          simp [ha, updateVADState_slot]) hInv
  | whisperStep iP iF =>
    exact poolInv_map_sessions st _
      (fun p => by
        by_cases ha : p.2.active = true <;>
          simp [ha, whisperTickSession_slot]) hInv
  | flushStep id =>
    exact poolInv_map_sessions st _
      (fun p => by by_cases hk : p.1 = id <;> simp [hk]) hInv
  | stopStep => exact poolInv_stop st hInv

theorem poolInv_init (cfg : ServerConfig) : PoolInv (initState cfg) := by
  refine ⟨?_, ?_, ?_⟩
  · simp only [initState, List.map_map]
    have : (ContextSlot.slot_id ∘ fun i => ({ slot_id := i, in_use := false } : ContextSlot))
        = fun i => i := rfl
    rw [this]
    simp [List.nodup_range]
  · intro slot hs
    simp only [initState, List.mem_map] at hs
    obtain ⟨i, hi, hrfl⟩ := hs
    rw [← hrfl]
    simp [refCount, initState]
  · intro p hp
    simp [initState] at hp

theorem reachable_poolInv (cfg : ServerConfig) (vad : Bool) (st : ServerState)
    (h : Reachable cfg vad st) : PoolInv st := by
  unfold Reachable at h
  induction h with
  | refl => exact poolInv_init cfg
  | tail hsteps hstep ih => exact step_poolInv cfg vad _ _ hstep ih

theorem sum_map_addN (P : List ContextSlot) (f g : ContextSlot → ℕ) :
    (P.map (fun x => f x + g x)).sum = (P.map f).sum + (P.map g).sum := by
  induction P with
  | nil => rfl
  | cons a t ih =>
    simp only [List.map_cons, List.sum_cons, ih]
    omega

theorem sum_indicator_none (P : List ContextSlot) :
    (P.map (fun sl => if (none : Option ℕ) = some sl.slot_id then 1 else 0)).sum = 0 := by
  induction P with
  | nil => rfl
  | cons a t ih =>
    simp only [List.map_cons, List.sum_cons, ih]
    rw [if_neg (by simp)]

theorem sum_indicator_zero (P : List ContextSlot) (i : ℕ)
    (h : i ∉ P.map ContextSlot.slot_id) :
    (P.map (fun sl => if (some i : Option ℕ) = some sl.slot_id then 1 else 0)).sum = 0 := by
  induction P with
  | nil => rfl
  | cons a t ih =>
    simp only [List.map_cons, List.sum_cons]
    have hne : i ≠ a.slot_id := fun e => h (by rw [List.map_cons]; exact List.mem_cons_self _ _ |> (e ▸ ·))
    rw [if_neg (by simp [hne])]
    rw [ih (fun ht => h (by rw [List.map_cons]; exact List.mem_cons_of_mem _ ht))]

theorem sum_indicator_one (P : List ContextSlot) (i : ℕ)
    (hnd : (P.map ContextSlot.slot_id).Nodup)
    (hi : i ∈ P.map ContextSlot.slot_id) :
    (P.map (fun sl => if (some i : Option ℕ) = some sl.slot_id then 1 else 0)).sum = 1 := by
  induction P with
  | nil => simp at hi
  | cons a t ih =>
    rw [List.map_cons, List.nodup_cons] at hnd
    simp only [List.map_cons, List.sum_cons]
    by_cases hia : i = a.slot_id
    · rw [if_pos (by rw [hia])]
      rw [sum_indicator_zero t i (by rw [hia]; exact hnd.1)]
    · rw [if_neg (by simp [hia])]
      rw [List.map_cons, List.mem_cons] at hi
      rcases hi with h | h
      · exact absurd h hia
      · rw [ih hnd.2 h]

theorem sum_refCount (P : List ContextSlot) (A : List (String × Session))
    (hnd : (P.map ContextSlot.slot_id).Nodup)
    (hmem : ∀ p ∈ A, ∀ i, p.2.context_slot = some i → i ∈ P.map ContextSlot.slot_id) :
    (P.map (fun sl => refCount A sl.slot_id)).sum
      = A.countP (fun p => p.2.context_slot.isSome) := by
  induction A with
  | nil =>
    simp only [refCount_nil, List.countP_nil]
    induction P with
    | nil => rfl
    | cons a t ih => simp [ih]
  | cons p rest ih =>
    simp only [refCount_cons]
    rw [sum_map_addN]
    rw [ih (fun q hq i hi => hmem q (List.mem_cons_of_mem _ hq) i hi)]
    rw [List.countP_cons]
    cases ho : p.2.context_slot with
    | none =>
      rw [sum_indicator_none]
      simp
    | some i =>
      rw [sum_indicator_one P i hnd (hmem p (List.mem_cons_self _ _) i ho)]
      simp

theorem countP_busy_eq_sum (A : List (String × Session)) :
    ∀ P : List ContextSlot,
      (∀ sl ∈ P, refCount A sl.slot_id = if sl.in_use then 1 else 0) →
      P.countP (fun sl => sl.in_use) = (P.map (fun sl => refCount A sl.slot_id)).sum
  | [], _ => rfl
  | a :: t, h => by
    rw [List.countP_cons, List.map_cons, List.sum_cons]
    rw [countP_busy_eq_sum A t (fun sl hsl => h sl (List.mem_cons_of_mem _ hsl))]
    rw [h a (List.mem_cons_self _ _)]
    cases hb : a.in_use with
    | true =>
      simp only [hb, if_true, if_pos]
      omega
    | false =>
      simp only [hb, Bool.false_eq_true, if_false]
      omega

theorem countP_eq_of_poolInv (st : ServerState) (hInv : PoolInv st) :
    st.sessions.countP (fun p => p.2.context_slot.isSome)
      = st.context_pool.countP (fun sl => sl.in_use) := by
  obtain ⟨hnd, hcnt, hmem⟩ := hInv
  rw [countP_busy_eq_sum st.sessions st.context_pool hcnt]
  rw [sum_refCount st.context_pool st.sessions hnd hmem]

/-- C6: in every reachable state of every run, a context slot is busy
(`in_use`) exactly when the number of sessions referencing it is one, and
the number of sessions with a non-null slot reference equals the number
of busy slots (preserved by `createSession`, `destroySession`,
`acquireContext` / `releaseContext`, the inference-loop passes, and
`stop`). -/
theorem C6_slot_session_invariant (cfg : ServerConfig) (vad : Bool) (st : ServerState)
    (h : Reachable cfg vad st) :
    st.context_pool.all
        (fun sl => sl.in_use == decide (refCount st.sessions sl.slot_id = 1)) = true
    ∧ st.sessions.countP (fun p => p.2.context_slot.isSome)
      = st.context_pool.countP (fun sl => sl.in_use) := by
  have hInv := reachable_poolInv cfg vad st h
  refine ⟨?_, countP_eq_of_poolInv st hInv⟩
  obtain ⟨hnd, hcnt, hmem⟩ := hInv
  rw [List.all_eq_true]
  intro sl hsl
  have hc := hcnt sl hsl
  cases hb : sl.in_use with
  | true =>
    rw [hb] at hc
    simp at hc
    simp [hc]
  | false =>
    rw [hb] at hc
    simp at hc
    simp [hc]

/-- Witness for C6: the state reached after one `open` step on a pool of
two slots. -/
theorem C6_witness :
    (((openHandler cfgPool2 (initState cfgPool2) "session_1").1).context_pool.all
        (fun sl => sl.in_use
          == decide (refCount ((openHandler cfgPool2 (initState cfgPool2) "session_1").1).sessions
              sl.slot_id = 1)) = true)
    ∧ ((openHandler cfgPool2 (initState cfgPool2) "session_1").1).sessions.countP
        (fun p => p.2.context_slot.isSome)
      = ((openHandler cfgPool2 (initState cfgPool2) "session_1").1).context_pool.countP
        (fun sl => sl.in_use) :=
  C6_slot_session_invariant cfgPool2 true (openHandler cfgPool2 (initState cfgPool2) "session_1").1
    (Relation.ReflTransGen.tail Relation.ReflTransGen.refl
      (Step.openStep (initState cfgPool2) "session_1" rfl))

end WhisperStream
